import Mathlib

/-!
Formal model of the MCGPU Metropolis Monte Carlo engine, shallowly embedding
the code of `src/Metropolis/ParallelSim/ParallelCalcs.cu` and `Box.cpp`
(the unnamed source file).  C++ `Real` (double) is modelled by `ℝ`; C `int`
indices and counts by `ℕ` (no index arithmetic in the modelled paths wraps
or goes negative); arrays by `List`; the CUDA kernels, which write disjoint
slots per thread, are modelled as pointwise-defined output arrays.
-/

open Classical

noncomputable section

namespace MCGPU

/-- Atom record (StructLibrary): position, LJ parameters and charge, all
C doubles, modelled as reals. -/
structure Atom where
  x : ℝ
  y : ℝ
  z : ℝ
  sigma : ℝ
  epsilon : ℝ
  charge : ℝ

instance : Inhabited Atom := ⟨⟨0, 0, 0, 0, 0, 0⟩⟩

/-- Bonded-term records are opaque payloads for the modelled code paths
(their struct definitions are outside the given sources; only their
bitwise copies matter here), so each is modelled as an integer payload. -/
abbrev Bond := ℤ

/-- Opaque angle payload, as for `Bond`. -/
abbrev Angle := ℤ

/-- Opaque dihedral payload, as for `Bond`. -/
abbrev Dihedral := ℤ

/-- Opaque hop payload, as for `Bond`. -/
abbrev Hop := ℤ

/-- Molecule record: id, the five element counts, and the five owned
arrays (StructLibrary).  The counts are the authoritative sizes used by
`copyMolecule`; array lengths model allocated extents. -/
@[ext]
structure Molecule where
  id : ℤ
  numOfAtoms : ℕ
  numOfBonds : ℕ
  numOfAngles : ℕ
  numOfDihedrals : ℕ
  numOfHops : ℕ
  atoms : List Atom
  bonds : List Bond
  angles : List Angle
  dihedrals : List Dihedral
  hops : List Hop

instance : Inhabited Molecule := ⟨⟨0, 0, 0, 0, 0, 0, [], [], [], [], []⟩⟩

/-- Environment record: box dimensions, cutoff, temperature and the
designated primary atom index (read-only during a run). -/
structure Environment where
  x : ℝ
  y : ℝ
  z : ℝ
  cutoff : ℝ
  temperature : ℝ
  primaryAtomIndex : ℕ

instance : Inhabited Environment := ⟨⟨0, 0, 0, 0, 0, 0⟩⟩

/-- Fixed simulation quantities of `ParallelSim`: molecule count, the
padded per-molecule size and total energy-slot count of the device energy
buffer, the environment, and the Boltzmann constant `kBoltz` (a constant
defined outside the given sources, carried as a parameter). -/
structure SimParams where
  moleculeCount : ℕ
  maxMolSize : ℕ
  energyCount : ℕ
  env : Environment
  kBoltz : ℝ

/-- First while-loop of `makePeriodic`: while `x < -0.5 * box`, add `box`.
The `0 < box` guard is only there to make the recursion well-founded; the
C loop diverges for non-positive `box`, which no modelled caller supplies. -/
def shiftUp (box x : ℝ) : ℝ :=
  if h : 0 < box ∧ x < -(0.5 * box) then shiftUp box (x + box) else x
termination_by (⌈(-(0.5 * box) - x) / box⌉).toNat
decreasing_by
  obtain ⟨hb, hx⟩ := h
  have hb0 : box ≠ 0 := ne_of_gt hb
  have key : (-(0.5 * box) - (x + box)) / box = (-(0.5 * box) - x) / box - 1 := by
    field_simp
    ring
  rw [key, Int.ceil_sub_one]
  have hpos : 0 < ⌈(-(0.5 * box) - x) / box⌉ :=
    Int.ceil_pos.mpr (div_pos (by linarith) hb)
  omega

/-- Second while-loop of `makePeriodic`: while `x > 0.5 * box`, subtract
`box`.  Guarded like `shiftUp`. -/
def shiftDown (box x : ℝ) : ℝ :=
  if h : 0 < box ∧ 0.5 * box < x then shiftDown box (x - box) else x
termination_by (⌈(x - 0.5 * box) / box⌉).toNat
decreasing_by
  obtain ⟨hb, hx⟩ := h
  have hb0 : box ≠ 0 := ne_of_gt hb
  have key : (x - box - 0.5 * box) / box = (x - 0.5 * box) / box - 1 := by
    field_simp
    ring
  rw [key, Int.ceil_sub_one]
  have hpos : 0 < ⌈(x - 0.5 * box) / box⌉ :=
    Int.ceil_pos.mpr (div_pos (by linarith) hb)
  omega

/-- Minimum-image displacement (`makePeriodic` in ParallelCalcs.cu):
first loop adds `box` while below `-0.5 * box`, second subtracts while
above `0.5 * box`. -/
def makePeriodic (x box : ℝ) : ℝ := shiftDown box (shiftUp box x)

/-- Geometric-mean mixing (`calcBlending`). -/
def calcBlending (d1 d2 : ℝ) : ℝ := Real.sqrt (d1 * d2)

/-- Lennard-Jones pair term (`calc_lj`): blends sigma/epsilon, returns 0
at `r2 = 0`, otherwise `4 ε (σ¹²/r¹² − σ⁶/r⁶)` built exactly as the code
does from `sig2OverR2`. -/
def calc_lj (atom1 atom2 : Atom) (r2 : ℝ) : ℝ :=
  let sigma := calcBlending atom1.sigma atom2.sigma
  let epsilon := calcBlending atom1.epsilon atom2.epsilon
  if r2 = 0 then 0
  else
    let sig2OverR2 := sigma * sigma / r2
    let sig6OverR6 := sig2OverR2 * sig2OverR2 * sig2OverR2
    let sig12OverR12 := sig6OverR6 * sig6OverR6
    4 * epsilon * (sig12OverR12 - sig6OverR6)

/-- Coulomb pair term (`calcCharge`): 0 at `r = 0`, otherwise
`charge1 · charge2 · 332.06 / r`. -/
def calcCharge (charge1 charge2 r : ℝ) : ℝ :=
  if r = 0 then 0 else charge1 * charge2 * 332.06 / r

/-- Value of energy-buffer slot `k`; out-of-range slots read as 0, which
also encodes that the device buffer outside the written region holds 0. -/
def slotVal (es : List ℝ) (k : ℕ) : ℝ := es.getD k 0

/-- Value slot `k` holds after one `aggregateEnergies` kernel pass with
the given `interval` and `batchSize`: the thread grid covers every lane,
each thread `t` owning base index `batchSize * interval * t`.  Slot `k`
is a base index iff `interval ∣ k` and `(k / interval) % batchSize = 0`;
it then accumulates the `batchSize - 1` following slots spaced `interval`
apart, each guarded by the kernel's `idx + i * interval < energyCount`
bounds check.  Consumed slots are zeroed; others are untouched. -/
def aggWrite (es : List ℝ) (interval batchSize k : ℕ) : ℝ :=
  if interval ∣ k then
    if k / interval % batchSize = 0 then
      slotVal es k +
        ∑ j ∈ Finset.Ico 1 batchSize,
          if k + j * interval < es.length then slotVal es (k + j * interval) else 0
    else 0
  else slotVal es k

/-- Whole-buffer effect of one `aggregateEnergies` launch (the per-thread
writes are disjoint, so the parallel pass is the pointwise map). -/
def aggregateEnergies (es : List ℝ) (interval batchSize : ℕ) : List ℝ :=
  List.ofFn fun k : Fin es.length => aggWrite es interval batchSize k.1

/-- Host-side reduction loop of `getEnergyFromDevice`:
`for (i = 1; i < energyCount; i *= batchSize)` with `batchSize = 3`,
launching one `aggregateEnergies` pass per iteration (the block-size
halving only changes dispatch geometry, never lane coverage).  The
`0 < interval` guard makes the recursion well-founded; the driver always
starts at `interval = 1`. -/
def getEnergyLoop (es : List ℝ) (interval : ℕ) : List ℝ :=
  if h : 0 < interval ∧ interval < es.length then
    getEnergyLoop (aggregateEnergies es interval 3) (interval * 3)
  else es
termination_by es.length - interval
decreasing_by
  simp only [aggregateEnergies, List.length_ofFn]
  omega

/-- `getEnergyFromDevice`: runs the reduction loop from `interval = 1`,
reads back slot 0 as the total, and re-zeroes slot 0 (`cudaMemset` of one
`Real`).  Returns the total together with the buffer it leaves behind. -/
def getEnergyFromDevice (es : List ℝ) : ℝ × List ℝ :=
  ((getEnergyLoop es 1).getD 0 0, (getEnergyLoop es 1).set 0 0)

/-- Auxiliary for the reduction proof: sum of the buffer slots at
multiples of `i` (indices past the end read as 0, so `range es.length`
safely covers every multiple in range). -/
def strideSum (es : List ℝ) (i : ℕ) : ℝ :=
  ∑ q ∈ Finset.range es.length, slotVal es (i * q)

/-- Squared minimum-image distance between the designated primary atoms
of molecules `i` and `j` (body of `checkMoleculeDistances`). -/
def moleculeDistSq (env : Environment) (mols : List Molecule) (i j : ℕ) : ℝ :=
  let atom1 := (mols.getD i default).atoms.getD env.primaryAtomIndex default
  let atom2 := (mols.getD j default).atoms.getD env.primaryAtomIndex default
  let deltaX := makePeriodic (atom1.x - atom2.x) env.x
  let deltaY := makePeriodic (atom1.y - atom2.y) env.y
  let deltaZ := makePeriodic (atom1.z - atom2.z) env.z
  deltaX * deltaX + deltaY * deltaY + deltaZ * deltaZ

/-- Neighbor flag computed by the `checkMoleculeDistances` kernel for
candidate `otherMol` (the `YES`/`NO` slot of `nbrMolsD`). -/
def inCutoffFlag (env : Environment) (mols : List Molecule)
    (moleculeCount curentMol startIdx otherMol : ℕ) : Prop :=
  otherMol < moleculeCount ∧ startIdx ≤ otherMol ∧ otherMol ≠ curentMol ∧
    moleculeDistSq env mols curentMol otherMol < env.cutoff * env.cutoff

/-- `createMolBatch`: runs the distance kernel, then the host compaction
loop `for (i = startIdx; i < moleculeCount; i++)` collecting flagged
indices in order.  Modelled as the flagged sublist of the loop's
iteration space. -/
def createMolBatch (P : SimParams) (mols : List Molecule) (curentMol startIdx : ℕ) :
    List ℕ :=
  (List.range' startIdx (P.moleculeCount - startIdx)).filter fun i =>
    decide (inCutoffFlag P.env mols P.moleculeCount curentMol startIdx i)

/-- Host batch array `molBatchH` as the energy kernel sees it: first the
collected neighbor indices, then `-1` filler from the `memset` (slots past
`moleculeCount` read as the filler too). -/
def molBatchArr (P : SimParams) (batch : List ℕ) : List ℤ :=
  batch.map Int.ofNat ++ List.replicate (P.moleculeCount - batch.length) (-1)

/-- Batch-molecule entry governing work cell `energyIdx`
(`molBatch[energyIdx / segmentSize]`). -/
def cellMol2 (P : SimParams) (molBatch : List ℤ) (energyIdx : ℕ) : ℤ :=
  molBatch.getD (energyIdx / (P.maxMolSize * P.maxMolSize)) (-1)

/-- Atom index of the current molecule decoded from a work-cell index
(`(energyIdx % segmentSize) / maxMolSize`). -/
def cellX (P : SimParams) (energyIdx : ℕ) : ℕ :=
  energyIdx % (P.maxMolSize * P.maxMolSize) / P.maxMolSize

/-- Atom index of the batch molecule decoded from a work-cell index
(`(energyIdx % segmentSize) % maxMolSize`). -/
def cellY (P : SimParams) (energyIdx : ℕ) : ℕ :=
  energyIdx % (P.maxMolSize * P.maxMolSize) % P.maxMolSize

/-- Atom of the current molecule examined by work cell `energyIdx`. -/
def cellAtom1 (P : SimParams) (mols : List Molecule) (currentMol energyIdx : ℕ) : Atom :=
  (mols.getD currentMol default).atoms.getD (cellX P energyIdx) default

/-- Atom of the batch molecule examined by work cell `energyIdx`. -/
def cellAtom2 (P : SimParams) (mols : List Molecule) (molBatch : List ℤ)
    (energyIdx : ℕ) : Atom :=
  (mols.getD (cellMol2 P molBatch energyIdx).toNat default).atoms.getD
    (cellY P energyIdx) default

/-- Activity predicate of a work cell, exactly the two nested guards of
`calcInterAtomicEnergy`: both decoded atom indices within their
molecules' atom counts, and nonnegative sigma and epsilon on both atoms. -/
def cellActive (P : SimParams) (mols : List Molecule) (molBatch : List ℤ)
    (currentMol energyIdx : ℕ) : Prop :=
  cellX P energyIdx < (mols.getD currentMol default).numOfAtoms ∧
  cellY P energyIdx < (mols.getD (cellMol2 P molBatch energyIdx).toNat default).numOfAtoms ∧
  0 ≤ (cellAtom1 P mols currentMol energyIdx).sigma ∧
  0 ≤ (cellAtom1 P mols currentMol energyIdx).epsilon ∧
  0 ≤ (cellAtom2 P mols molBatch energyIdx).sigma ∧
  0 ≤ (cellAtom2 P mols molBatch energyIdx).epsilon

/-- Squared minimum-image distance between the two atoms of work cell
`energyIdx`, as `calcInterAtomicEnergy` computes it. -/
def cellR2 (P : SimParams) (mols : List Molecule) (molBatch : List ℤ)
    (currentMol energyIdx : ℕ) : ℝ :=
  let atom1 := cellAtom1 P mols currentMol energyIdx
  let atom2 := cellAtom2 P mols molBatch energyIdx
  let deltaX := makePeriodic (atom1.x - atom2.x) P.env.x
  let deltaY := makePeriodic (atom1.y - atom2.y) P.env.y
  let deltaZ := makePeriodic (atom1.z - atom2.z) P.env.z
  deltaX * deltaX + deltaY * deltaY + deltaZ * deltaZ

/-- One thread of `calcInterAtomicEnergy`: `some v` iff the thread for
work cell `energyIdx` executes `energies[energyIdx] = totalEnergy`, with
`v` the written value; `none` if any guard fails and the slot is left
untouched. -/
def cellWrite (P : SimParams) (mols : List Molecule) (currentMol : ℕ)
    (molBatch : List ℤ) (energyIdx : ℕ) : Option ℝ :=
  if energyIdx < P.energyCount ∧ cellMol2 P molBatch energyIdx ≠ -1 then
    if cellX P energyIdx < (mols.getD currentMol default).numOfAtoms ∧
        cellY P energyIdx <
          (mols.getD (cellMol2 P molBatch energyIdx).toNat default).numOfAtoms then
      if 0 ≤ (cellAtom1 P mols currentMol energyIdx).sigma ∧
          0 ≤ (cellAtom1 P mols currentMol energyIdx).epsilon ∧
          0 ≤ (cellAtom2 P mols molBatch energyIdx).sigma ∧
          0 ≤ (cellAtom2 P mols molBatch energyIdx).epsilon then
        some (calc_lj (cellAtom1 P mols currentMol energyIdx)
            (cellAtom2 P mols molBatch energyIdx)
            (cellR2 P mols molBatch currentMol energyIdx) +
          calcCharge (cellAtom1 P mols currentMol energyIdx).charge
            (cellAtom2 P mols molBatch energyIdx).charge
            (Real.sqrt (cellR2 P mols molBatch currentMol energyIdx)))
      else none
    else none
  else none

/-- Energy buffer after the `calcInterAtomicEnergy` launch, assuming the
all-zero pre-state that `calcBatchEnergy` maintains (see the buffer
invariant): written cells hold their value, untouched cells hold 0. -/
def kernelEnergies (P : SimParams) (mols : List Molecule) (currentMol : ℕ)
    (molBatch : List ℤ) : List ℝ :=
  List.ofFn fun k : Fin P.energyCount =>
    (cellWrite P mols currentMol molBatch k.1).getD 0

/-- `calcBatchEnergy`: for a non-empty batch, dispatches the pairwise
kernel over the zeroed buffer and reduces; otherwise returns 0 without
touching the device. -/
def calcBatchEnergy (P : SimParams) (mols : List Molecule) (batch : List ℕ)
    (molIdx : ℕ) : ℝ :=
  if 0 < batch.length then
    (getEnergyFromDevice (kernelEnergies P mols molIdx (molBatchArr P batch))).1
  else 0

/-- `calcMolecularEnergyContribution`: batch construction followed by the
batch energy evaluation. -/
def calcMolecularEnergyContribution (P : SimParams) (mols : List Molecule)
    (molIdx startIdx : ℕ) : ℝ :=
  calcBatchEnergy P mols (createMolBatch P mols molIdx startIdx) molIdx

/-- `calcSystemEnergy`: full O(N²) system energy, summing every
molecule's contribution against all later molecules (`startIdx = mol`). -/
def calcSystemEnergy (P : SimParams) (mols : List Molecule) : ℝ :=
  ∑ mol ∈ Finset.range P.moleculeCount, calcMolecularEnergyContribution P mols mol mol

/-- Well-formedness of a loaded molecule: each sub-array's allocated
length equals its count (the loader allocates pools at exactly the
declared sizes; spec 3: array lengths fixed after initial load). -/
def molWF (mol : Molecule) : Prop :=
  mol.atoms.length = mol.numOfAtoms ∧ mol.bonds.length = mol.numOfBonds ∧
  mol.angles.length = mol.numOfAngles ∧ mol.dihedrals.length = mol.numOfDihedrals ∧
  mol.hops.length = mol.numOfHops

/-- Shape agreement between a mutated molecule and its original: all five
counts unchanged and all five sub-array allocations unchanged — exactly
what an in-place content mutation preserves. -/
def sameShape (a b : Molecule) : Prop :=
  a.numOfAtoms = b.numOfAtoms ∧ a.numOfBonds = b.numOfBonds ∧
  a.numOfAngles = b.numOfAngles ∧ a.numOfDihedrals = b.numOfDihedrals ∧
  a.numOfHops = b.numOfHops ∧
  a.atoms.length = b.atoms.length ∧ a.bonds.length = b.bonds.length ∧
  a.angles.length = b.angles.length ∧ a.dihedrals.length = b.dihedrals.length ∧
  a.hops.length = b.hops.length

/-- The copy loops of `Box::copyMolecule`: overwrite the first `n` slots
of `dst` with those of `src`, leaving the rest of `dst` in place. -/
def copyFirst {α : Type} (n : ℕ) (src dst : List α) : List α :=
  src.take n ++ dst.drop n

/-- `Box::copyMolecule`: copies the five counts and the id, then copies
the first `count` entries of each sub-array from `src` over `dst`. -/
def copyMolecule (dst src : Molecule) : Molecule :=
  { id := src.id
    numOfAtoms := src.numOfAtoms
    numOfBonds := src.numOfBonds
    numOfAngles := src.numOfAngles
    numOfDihedrals := src.numOfDihedrals
    numOfHops := src.numOfHops
    atoms := copyFirst src.numOfAtoms src.atoms dst.atoms
    bonds := copyFirst src.numOfBonds src.bonds dst.bonds
    angles := copyFirst src.numOfAngles src.angles dst.angles
    dihedrals := copyFirst src.numOfDihedrals src.dihedrals dst.dihedrals
    hops := copyFirst src.numOfHops src.hops dst.hops }

/-- `Box::saveChangedMole`: frees the old scratch molecule, copies the
scalar fields, allocates each scratch sub-array at exactly the source's
current count (`malloc`, contents indeterminate until copied), then deep
copies via `copyMolecule`. -/
def saveChangedMole (src : Molecule) : Molecule :=
  copyMolecule
    { id := src.id
      numOfAtoms := src.numOfAtoms
      numOfBonds := src.numOfBonds
      numOfAngles := src.numOfAngles
      numOfDihedrals := src.numOfDihedrals
      numOfHops := src.numOfHops
      atoms := List.replicate src.numOfAtoms default
      bonds := List.replicate src.numOfBonds default
      angles := List.replicate src.numOfAngles default
      dihedrals := List.replicate src.numOfDihedrals default
      hops := List.replicate src.numOfHops default }
    src

/-- `Box::Rollback`: overwrite molecule `moleno` with the checkpoint
buffer's contents via `copyMolecule`. -/
def Rollback (mols : List Molecule) (moleno : ℕ) (changedmole : Molecule) :
    List Molecule :=
  mols.set moleno (copyMolecule (mols.getD moleno default) changedmole)

/-- The acceptance decision of `runParallel` (lines 264-282): accept when
`Enew < Eold`, otherwise accept iff `exp(-(Enew-Eold)/kT) >= draw` where
`draw` is the step's `randomFloat(0.0, 1.0)` result. -/
def acceptMove (newEnergyCont oldEnergyCont kT draw : ℝ) : Bool :=
  if newEnergyCont < oldEnergyCont then true
  else if Real.exp (-(newEnergyCont - oldEnergyCont) / kT) ≥ draw then true else false

/-- Random draws consumed by one Metropolis step: the molecule index from
`chooseMolecule`, the net coordinate perturbation that
`changeMolecule`'s random move plus box wrap applies to the molecule
(`moveMolecule`/`wrapBox` live outside the given sources, so the move is
carried as the function it applies), and the acceptance draw. -/
structure StepRand where
  changeIdx : ℕ
  perturb : Molecule → Molecule
  draw : ℝ

/-- Engine state threaded through `runParallel`: the molecule pool, the
single checkpoint slot `changedmole`, the running total `oldEnergy`, the
final exposed `currentEnergy`, the two counters, and an instrumentation
counter recording each `calcSystemEnergy` invocation. -/
structure SimState where
  mols : List Molecule
  changedmole : Molecule
  oldEnergy : ℝ
  currentEnergy : ℝ
  accepted : ℕ
  rejected : ℕ
  sysEnergyCalls : ℕ

instance : Inhabited SimState := ⟨⟨[], default, 0, 0, 0, 0, 0⟩⟩

/-- Modelled from the spec: `runParallel` calls
`calcMolecularEnergyContribution(changeIdx)` relying on a default
`startIdx` declared in a header outside the given sources; spec 4.6 fixes
delta evaluations to `buildBatch(m, 0)`, so the default is 0.  This is
the step's old-energy contribution, evaluated before the move. -/
def stepOldCont (P : SimParams) (r : StepRand) (st : SimState) : ℝ :=
  calcMolecularEnergyContribution P st.mols r.changeIdx 0

/-- Molecule pool after `changeMolecule` perturbs the chosen molecule. -/
def movedPool (P : SimParams) (r : StepRand) (st : SimState) : List Molecule :=
  st.mols.set r.changeIdx (r.perturb (st.mols.getD r.changeIdx default))

/-- The step's new-energy contribution, evaluated against the moved pool
with the same default `startIdx = 0` as `stepOldCont`. -/
def stepNewCont (P : SimParams) (r : StepRand) (st : SimState) : ℝ :=
  calcMolecularEnergyContribution P (movedPool P r st) r.changeIdx 0

/-- The step's acceptance decision with `kT = kBoltz * temperature`. -/
def stepAccept (P : SimParams) (r : StepRand) (st : SimState) : Bool :=
  acceptMove (stepNewCont P r st) (stepOldCont P r st)
    (P.kBoltz * P.env.temperature) r.draw

/-- One iteration of the `runParallel` move loop: evaluate the old
contribution, checkpoint and perturb the chosen molecule
(`changeMolecule` saves `changedmole` first), evaluate the new
contribution, then either commit (count the acceptance, add the delta to
`oldEnergy`) or reject (count the rejection, `Rollback` the molecule;
`oldEnergy` untouched). -/
def metroStep (P : SimParams) (r : StepRand) (st : SimState) : SimState :=
  let ck := saveChangedMole (st.mols.getD r.changeIdx default)
  if stepAccept P r st then
    { st with
        mols := movedPool P r st
        changedmole := ck
        accepted := st.accepted + 1
        oldEnergy := st.oldEnergy + (stepNewCont P r st - stepOldCont P r st) }
  else
    { st with
        mols := Rollback (movedPool P r st) r.changeIdx ck
        changedmole := ck
        rejected := st.rejected + 1 }

/-- `ParallelSim::runParallel`: computes the full system energy once,
only when `oldEnergy` is still the 0 sentinel (bumping the
instrumentation counter at that single call site), then runs the step
loop over the per-step draws and exposes the final `currentEnergy`. -/
def runParallel (P : SimParams) (rands : List StepRand) (st : SimState) : SimState :=
  let st0 :=
    if st.oldEnergy = 0 then
      { st with
          oldEnergy := calcSystemEnergy P st.mols
          sysEnergyCalls := st.sysEnergyCalls + 1 }
    else st
  let st1 := rands.foldl (fun s r => metroStep P r s) st0
  { st1 with currentEnergy := st1.oldEnergy }

/-! Concrete sample inputs used to instantiate theorems with hypotheses. -/

/-- Sample atom for round-trip instantiation. -/
def wAtomA : Atom := ⟨1, 2, 3, 4, 5, 6⟩

/-- Sample replacement atom for round-trip instantiation. -/
def wAtomB : Atom := ⟨7, 8, 9, 1, 2, 3⟩

/-- Sample one-atom molecule. -/
def wMolecule : Molecule := ⟨5, 1, 0, 0, 0, 0, [wAtomA], [], [], [], []⟩

/-- Sample in-place mutation: changes the id and the atom contents while
keeping all counts and allocations. -/
def wMutation (mol : Molecule) : Molecule := { mol with id := 9, atoms := [wAtomB] }

/-- Sample environment with zero fields. -/
def wEnv : Environment := ⟨0, 0, 0, 0, 0, 0⟩

/-- Sample parameters of an empty simulation. -/
def wParams : SimParams := ⟨0, 0, 0, wEnv, 1⟩

/-- Sample step draws: identity perturbation, acceptance draw 2. -/
def wRand : StepRand := ⟨0, id, 2⟩

/-- Sample initial state with an empty pool. -/
def wState : SimState := ⟨[], default, 0, 0, 0, 0, 0⟩

/-- Sample environment for the work-cell instantiation: cubic box of
side 10, primary atom index 0. -/
def wEnv4 : Environment := ⟨10, 10, 10, 0, 0, 0⟩

/-- Sample parameters: two molecules, one atom each, one energy slot. -/
def wParams4 : SimParams := ⟨2, 1, 1, wEnv4, 1⟩

/-- Sample current-molecule atom at the origin, inert and uncharged. -/
def wAtom1 : Atom := ⟨0, 0, 0, 0, 0, 0⟩

/-- Sample batch-molecule atom at distance 1. -/
def wAtom2 : Atom := ⟨1, 0, 0, 0, 0, 0⟩

/-- Sample current molecule. -/
def wMol1 : Molecule := ⟨0, 1, 0, 0, 0, 0, [wAtom1], [], [], [], []⟩

/-- Sample batch molecule. -/
def wMol2 : Molecule := ⟨1, 1, 0, 0, 0, 0, [wAtom2], [], [], [], []⟩

/-- Sample molecule pool. -/
def wMols4 : List Molecule := [wMol1, wMol2]

/-- Sample batch array holding molecule 1. -/
def wBatch4 : List ℤ := [1]

/-! Lemmas about the periodic wrap `makePeriodic`. -/

theorem shiftUp_ge (box : ℝ) (hb : 0 < box) : ∀ x : ℝ, -(0.5 * box) ≤ shiftUp box x := by
  refine shiftUp.induct box (fun x => -(0.5 * box) ≤ shiftUp box x) ?_ ?_
  · intro x h ih
    rw [shiftUp, dif_pos h]
    exact ih
  · intro x h
    rw [shiftUp, dif_neg h]
    push_neg at h
    exact h hb

theorem shiftUp_intmul (box : ℝ) : ∀ x : ℝ, ∃ k : ℤ, shiftUp box x = x + k * box := by
  refine shiftUp.induct box (fun x => ∃ k : ℤ, shiftUp box x = x + k * box) ?_ ?_
  · intro x h ih
    obtain ⟨k, hk⟩ := ih
    refine ⟨k + 1, ?_⟩
    rw [shiftUp, dif_pos h, hk]
    push_cast
    ring
  · intro x h
    exact ⟨0, by rw [shiftUp, dif_neg h]; ring⟩

theorem shiftDown_le (box : ℝ) (hb : 0 < box) : ∀ x : ℝ, shiftDown box x ≤ 0.5 * box := by
  refine shiftDown.induct box (fun x => shiftDown box x ≤ 0.5 * box) ?_ ?_
  · intro x h ih
    rw [shiftDown, dif_pos h]
    exact ih
  · intro x h
    rw [shiftDown, dif_neg h]
    push_neg at h
    exact h hb

theorem shiftDown_ge (box : ℝ) :
    ∀ x : ℝ, -(0.5 * box) ≤ x → -(0.5 * box) ≤ shiftDown box x := by
  refine shiftDown.induct box (fun x => -(0.5 * box) ≤ x → -(0.5 * box) ≤ shiftDown box x) ?_ ?_
  · intro x h ih _
    rw [shiftDown, dif_pos h]
    exact ih (by linarith [h.2])
  · intro x h hx
    rw [shiftDown, dif_neg h]
    exact hx

theorem shiftDown_intmul (box : ℝ) : ∀ x : ℝ, ∃ k : ℤ, shiftDown box x = x + k * box := by
  refine shiftDown.induct box (fun x => ∃ k : ℤ, shiftDown box x = x + k * box) ?_ ?_
  · intro x h ih
    obtain ⟨k, hk⟩ := ih
    refine ⟨k - 1, ?_⟩
    rw [shiftDown, dif_pos h, hk]
    push_cast
    ring
  · intro x h
    exact ⟨0, by rw [shiftDown, dif_neg h]; ring⟩

theorem makePeriodic_neg_one_two : makePeriodic (-1 : ℝ) 2 = -1 := by
  unfold makePeriodic
  rw [shiftUp, dif_neg (by norm_num)]
  rw [shiftDown, dif_neg (by norm_num)]

/-- C7 (amended): for box length `L > 0`, `makePeriodic d L` lies in the
closed interval `[-L/2, L/2]` and differs from `d` by an integer multiple
of `L`.  (The original claim's half-open interval `(-L/2, L/2]` fails:
see the counterexample.) -/
theorem makePeriodic_range_amended (d L : ℝ) (h : 0 < L) :
    -(L / 2) ≤ makePeriodic d L ∧ makePeriodic d L ≤ L / 2 ∧
      ∃ k : ℤ, makePeriodic d L = d + k * L := by
  have h05 : -(0.5 * L) = -(L / 2) := by ring
  have h05' : (0.5 : ℝ) * L = L / 2 := by ring
  refine ⟨?_, ?_, ?_⟩
  · rw [← h05]
    exact shiftDown_ge L (shiftUp L d) (shiftUp_ge L h d)
  · rw [← h05']
    exact shiftDown_le L h (shiftUp L d)
  · obtain ⟨k1, hk1⟩ := shiftUp_intmul L d
    obtain ⟨k2, hk2⟩ := shiftDown_intmul L (shiftUp L d)
    refine ⟨k1 + k2, ?_⟩
    show shiftDown L (shiftUp L d) = d + (↑(k1 + k2)) * L
    rw [hk2, hk1]
    push_cast
    ring

/-- C7 witness: the amended range theorem instantiated at `d = -1`,
`L = 2`. -/
theorem makePeriodic_range_witness :
    -((2 : ℝ) / 2) ≤ makePeriodic (-1) 2 ∧ makePeriodic (-1 : ℝ) 2 ≤ 2 / 2 ∧
      ∃ k : ℤ, makePeriodic (-1 : ℝ) 2 = -1 + k * 2 :=
  makePeriodic_range_amended (-1) 2 (by norm_num)

/-- C7 counterexample: at `d = -1`, `L = 2` (so `0 < L`), the code
returns `-1 = -L/2` itself, which is not in the claimed half-open
interval `(-L/2, L/2]` because the claimed strict lower bound fails. -/
theorem makePeriodic_claim_cex :
    (0 : ℝ) < 2 ∧ makePeriodic (-1 : ℝ) 2 = -1 ∧
      ¬ (-((2 : ℝ) / 2) < makePeriodic (-1 : ℝ) 2) := by
  refine ⟨by norm_num, makePeriodic_neg_one_two, ?_⟩
  rw [makePeriodic_neg_one_two]
  norm_num

/-! Lemmas about the parallel reduction. -/

theorem length_aggregateEnergies (es : List ℝ) (i b : ℕ) :
    (aggregateEnergies es i b).length = es.length := by
  simp [aggregateEnergies]

theorem slotVal_eq_zero (es : List ℝ) {k : ℕ} (h : es.length ≤ k) : slotVal es k = 0 :=
  List.getD_eq_default es 0 h

theorem slotVal_aggregateEnergies (es : List ℝ) (i b k : ℕ) :
    slotVal (aggregateEnergies es i b) k =
      if k < es.length then aggWrite es i b k else 0 := by
  rcases lt_or_ge k es.length with h | h
  · rw [if_pos h]
    unfold slotVal
    rw [List.getD_eq_getElem _ _ (by simpa [length_aggregateEnergies] using h)]
    simp [aggregateEnergies]
  · rw [if_neg (not_lt.mpr h)]
    exact slotVal_eq_zero _ (by simpa [length_aggregateEnergies] using h)

theorem ite_slotVal (es : List ℝ) (m : ℕ) :
    (if m < es.length then slotVal es m else 0) = slotVal es m := by
  split
  · rfl
  · exact (slotVal_eq_zero es (le_of_not_lt (by assumption))).symm

theorem slot_agg_acc (es : List ℝ) {i : ℕ} (hi : 0 < i) (q : ℕ) :
    slotVal (aggregateEnergies es i 3) (3 * i * q) =
      slotVal es (3 * i * q) + slotVal es (3 * i * q + i) +
        slotVal es (3 * i * q + 2 * i) := by
  rw [slotVal_aggregateEnergies]
  by_cases hk : 3 * i * q < es.length
  · rw [if_pos hk]
    unfold aggWrite
    have hdvd : i ∣ 3 * i * q := ⟨3 * q, by ring⟩
    have hdiv : 3 * i * q / i = 3 * q := by
      rw [show 3 * i * q = i * (3 * q) by ring]
      exact Nat.mul_div_cancel_left _ hi
    rw [if_pos hdvd, hdiv, if_pos (by omega : 3 * q % 3 = 0)]
    rw [show Finset.Ico 1 3 = {1, 2} from by decide]
    rw [Finset.sum_insert (by decide), Finset.sum_singleton]
    rw [ite_slotVal, ite_slotVal]
    rw [show 1 * i = i from by ring, show 2 * i = 2 * i from rfl]
    ring
  · rw [if_neg hk]
    have h1 : es.length ≤ 3 * i * q := le_of_not_lt hk
    rw [slotVal_eq_zero es h1, slotVal_eq_zero es (by omega), slotVal_eq_zero es (by omega)]
    norm_num

theorem sum_range_triple (f : ℕ → ℝ) (n : ℕ) :
    ∑ p ∈ Finset.range (3 * n), f p =
      ∑ q ∈ Finset.range n, (f (3 * q) + f (3 * q + 1) + f (3 * q + 2)) := by
  induction n with
  | zero => simp
  | succ n ih =>
      rw [Finset.sum_range_succ, ← ih, show 3 * (n + 1) = 3 * n + 1 + 1 + 1 by ring]
      rw [Finset.sum_range_succ, Finset.sum_range_succ, Finset.sum_range_succ]
      ring

theorem strideSum_agg (es : List ℝ) {i : ℕ} (hi : 0 < i) :
    strideSum (aggregateEnergies es i 3) (3 * i) = strideSum es i := by
  unfold strideSum
  rw [length_aggregateEnergies]
  have key : ∀ q, slotVal (aggregateEnergies es i 3) (3 * i * q) =
      slotVal es (i * (3 * q)) + slotVal es (i * (3 * q + 1)) +
        slotVal es (i * (3 * q + 2)) := by
    intro q
    rw [slot_agg_acc es hi q]
    rw [show 3 * i * q + i = i * (3 * q + 1) from by ring,
      show 3 * i * q + 2 * i = i * (3 * q + 2) from by ring,
      show 3 * i * q = i * (3 * q) from by ring]
  calc ∑ q ∈ Finset.range es.length, slotVal (aggregateEnergies es i 3) (3 * i * q)
      = ∑ q ∈ Finset.range es.length,
          (slotVal es (i * (3 * q)) + slotVal es (i * (3 * q + 1)) +
            slotVal es (i * (3 * q + 2))) :=
        Finset.sum_congr rfl fun q _ => key q
    _ = ∑ p ∈ Finset.range (3 * es.length), slotVal es (i * p) :=
        (sum_range_triple (fun p => slotVal es (i * p)) es.length).symm
    _ = ∑ p ∈ Finset.range es.length, slotVal es (i * p) := by
        symm
        apply Finset.sum_subset (Finset.range_subset.mpr (by omega))
        intro p hp hnp
        apply slotVal_eq_zero
        have hnp' : es.length ≤ p := le_of_not_lt (by simpa using hnp)
        calc es.length ≤ p := hnp'
          _ ≤ i * p := Nat.le_mul_of_pos_left p hi

theorem strideSum_stop (es : List ℝ) {i : ℕ} (hn : es.length ≤ i) :
    strideSum es i = slotVal es 0 := by
  unfold strideSum
  rcases Nat.eq_zero_or_pos es.length with h0 | h0
  · rw [h0, Finset.range_zero, Finset.sum_empty]
    exact (slotVal_eq_zero es (by omega)).symm
  · rw [Finset.sum_eq_single_of_mem 0 (Finset.mem_range.mpr h0)]
    · rw [Nat.mul_zero]
    · intro q _ hq0
      apply slotVal_eq_zero
      have h1 : 1 ≤ q := Nat.one_le_iff_ne_zero.mpr hq0
      calc es.length ≤ i := hn
        _ ≤ i * q := Nat.le_mul_of_pos_right i h1

theorem getEnergyLoop_length :
    ∀ (es : List ℝ) (i : ℕ), (getEnergyLoop es i).length = es.length := by
  refine getEnergyLoop.induct (fun es i => (getEnergyLoop es i).length = es.length) ?_ ?_
  · intro es i h ih
    rw [getEnergyLoop, dif_pos h, ih, length_aggregateEnergies]
  · intro es i h
    rw [getEnergyLoop, dif_neg h]

theorem getEnergyLoop_slot0 :
    ∀ (es : List ℝ) (i : ℕ), 0 < i →
      slotVal (getEnergyLoop es i) 0 = strideSum es i := by
  refine getEnergyLoop.induct
    (fun es i => 0 < i → slotVal (getEnergyLoop es i) 0 = strideSum es i) ?_ ?_
  · intro es i h ih _
    rw [getEnergyLoop, dif_pos h, ih (by omega), show i * 3 = 3 * i from by ring]
    exact strideSum_agg es h.1
  · intro es i h hi
    rw [getEnergyLoop, dif_neg h]
    push_neg at h
    exact (strideSum_stop es (h hi)).symm

theorem sum_slotVal (es : List ℝ) :
    ∑ k ∈ Finset.range es.length, slotVal es k = es.sum := by
  induction es with
  | nil => simp
  | cons a l ih =>
      rw [List.length_cons, Finset.sum_range_succ']
      simp only [slotVal, List.getD_cons_succ, List.getD_cons_zero]
      rw [List.sum_cons]
      unfold slotVal at ih
      rw [ih]
      ring

theorem agg_pass_zero (es : List ℝ) {i : ℕ} (hi : 0 < i)
    (hP : ∀ m, 0 < m → ¬ i ∣ m → slotVal es m = 0) :
    ∀ m, 0 < m → ¬ 3 * i ∣ m → slotVal (aggregateEnergies es i 3) m = 0 := by
  intro m hm hnd
  rw [slotVal_aggregateEnergies]
  by_cases hlen : m < es.length
  · rw [if_pos hlen]
    unfold aggWrite
    by_cases hdvd : i ∣ m
    · rw [if_pos hdvd]
      obtain ⟨q, rfl⟩ := hdvd
      rw [Nat.mul_div_cancel_left q hi]
      rw [if_neg ?hq]
      case hq =>
        intro h30
        obtain ⟨t, rfl⟩ := Nat.dvd_of_mod_eq_zero h30
        exact hnd ⟨t, by ring⟩
    · rw [if_neg hdvd]
      exact hP _ hm hdvd
  · rw [if_neg hlen]

theorem getEnergyLoop_zero :
    ∀ (es : List ℝ) (i : ℕ), 0 < i →
      (∀ m, 0 < m → ¬ i ∣ m → slotVal es m = 0) →
      ∀ k, 0 < k → slotVal (getEnergyLoop es i) k = 0 := by
  refine getEnergyLoop.induct
    (fun es i => 0 < i → (∀ m, 0 < m → ¬ i ∣ m → slotVal es m = 0) →
      ∀ k, 0 < k → slotVal (getEnergyLoop es i) k = 0) ?_ ?_
  · intro es i h ih hi hP k hk
    rw [getEnergyLoop, dif_pos h]
    refine ih (by omega) ?_ k hk
    intro m hm hnd
    rw [Nat.mul_comm] at hnd
    exact agg_pass_zero es hi hP m hm hnd
  · intro es i h hi hP k hk
    rw [getEnergyLoop, dif_neg h]
    by_cases hlen : k < es.length
    · refine hP k hk ?_
      intro hdvd
      have h1 : i ≤ k := Nat.le_of_dvd hk hdvd
      push_neg at h
      have h2 := h hi
      omega
    · exact slotVal_eq_zero es (le_of_not_lt hlen)

/-- C5: for every flat energy buffer (of any length, not just powers of
the branching factor 3), the iterative strided reduction started at
interval 1 terminates (it is a total function) with slot 0 holding
exactly the sum of all original elements. -/
theorem reduction_sums (es : List ℝ) : (getEnergyLoop es 1).getD 0 0 = es.sum := by
  have h := getEnergyLoop_slot0 es 1 Nat.one_pos
  unfold slotVal at h
  rw [h]
  unfold strideSum
  simp only [one_mul]
  exact sum_slotVal es

/-- C10: after a completed energy evaluation, the buffer
`getEnergyFromDevice` leaves behind is entirely zero — the reduction
passes zero every consumed slot (leaving nonzero mass only at slot 0)
and the final read-back re-zeroes slot 0 — so the all-zero precondition
of the next evaluation is re-established regardless of what the kernel
wrote. -/
theorem energy_buffer_zeroed (es : List ℝ) :
    (getEnergyFromDevice es).2 = List.replicate es.length 0 := by
  show (getEnergyLoop es 1).set 0 0 = List.replicate es.length 0
  apply List.ext_getElem
  · rw [List.length_set, getEnergyLoop_length, List.length_replicate]
  · intro k h1 h2
    rw [List.getElem_replicate]
    rcases Nat.eq_zero_or_pos k with rfl | hk
    · exact List.getElem_set_self h1
    · rw [List.getElem_set_ne (by omega) h1]
      have hlen : k < (getEnergyLoop es 1).length := by
        rw [getEnergyLoop_length]
        rw [List.length_set, getEnergyLoop_length] at h1
        exact h1
      have hz := getEnergyLoop_zero es 1 Nat.one_pos
        (fun m _ hnd => absurd (one_dvd m) hnd) k hk
      unfold slotVal at hz
      rw [List.getD_eq_getElem _ _ hlen] at hz
      exact hz

/-- C8: at squared distance exactly 0, the Lennard-Jones term returns 0
through its `r2 == 0.0` guard, and the Coulomb term — called with
`r = sqrt(r2) = 0` — returns 0 through its `r == 0.0` guard, so neither
division is reached and no error is surfaced. -/
theorem coincident_zero (atom1 atom2 : Atom) (charge1 charge2 : ℝ) :
    calc_lj atom1 atom2 0 = 0 ∧ calcCharge charge1 charge2 (Real.sqrt 0) = 0 := by
  constructor
  · simp [calc_lj]
  · simp [calcCharge, Real.sqrt_zero]

/-- C1 (amended): the step's acceptance decision holds iff `Enew < Eold`,
or `Enew ≥ Eold` and the uniform draw is less than **or equal to**
`exp(-(Enew-Eold)/kT)`.  (The original claim's strict `<` fails: see the
counterexample.) -/
theorem metropolis_acceptance_amended (newE oldE kT draw : ℝ) :
    acceptMove newE oldE kT draw = true ↔
      (newE < oldE ∨ (oldE ≤ newE ∧ draw ≤ Real.exp (-(newE - oldE) / kT))) := by
  unfold acceptMove
  by_cases h : newE < oldE
  · simp [h]
  · have hle : oldE ≤ newE := le_of_not_lt h
    by_cases h2 : Real.exp (-(newE - oldE) / kT) ≥ draw
    · simp [h, h2, hle]
    · rw [if_neg h, if_neg h2]
      simp only [Bool.false_eq_true, false_iff]
      rintro (hc | ⟨-, hc⟩)
      · exact h hc
      · exact h2 hc

/-- C1 counterexample: with `Eold = 0 ≤ Enew = 1`, `kT = 1` and the draw
exactly `exp(-1) = exp(-(Enew-Eold)/kT)`, the code accepts (its test is
`exp(...) >= draw`), while the claimed criterion `draw < exp(...)` is
false — so acceptance is not equivalent to the claimed strict
inequality. -/
theorem metropolis_acceptance_claim_cex :
    (0 : ℝ) ≤ 1 ∧ acceptMove 1 0 1 (Real.exp (-1)) = true ∧
      ¬ (Real.exp (-1) < Real.exp (-((1 : ℝ) - 0) / 1)) := by
  have harg : -((1 : ℝ) - 0) / 1 = -1 := by norm_num
  refine ⟨by norm_num, ?_, ?_⟩
  · unfold acceptMove
    rw [if_neg (by norm_num), if_pos (by rw [harg])]
  · rw [harg]
    exact lt_irrefl _

/-- C6: `createMolBatch(m, s)` returns exactly the candidates
`c ∈ [s, moleculeCount)` distinct from `m` whose primary atoms lie at
squared minimum-image distance strictly inside `cutoff²`, in ascending
order (the compaction loop walks indices upward); the result may be
empty. -/
theorem createMolBatch_correct (P : SimParams) (mols : List Molecule)
    (curentMol startIdx : ℕ) :
    List.Sorted (· < ·) (createMolBatch P mols curentMol startIdx) ∧
      ∀ c, c ∈ createMolBatch P mols curentMol startIdx ↔
        (startIdx ≤ c ∧ c < P.moleculeCount ∧ c ≠ curentMol ∧
          moleculeDistSq P.env mols curentMol c < P.env.cutoff * P.env.cutoff) := by
  constructor
  · exact List.Pairwise.sublist (List.filter_sublist _)
      (List.pairwise_lt_range' startIdx (P.moleculeCount - startIdx))
  · intro c
    unfold createMolBatch
    rw [List.mem_filter, List.mem_range'_1, decide_eq_true_iff]
    unfold inCutoffFlag
    constructor
    · rintro ⟨⟨h1, _⟩, h3, _, h5, h6⟩
      exact ⟨h1, h3, h5, h6⟩
    · rintro ⟨h1, h2, h3, h4⟩
      exact ⟨⟨h1, by omega⟩, h2, h1, h3, h4⟩

/-- C4: a work cell (in the grid, with a real batch molecule) writes to
its slot only if it is active — both decoded atom indices within their
molecules' atom counts and nonnegative sigma/epsilon on both atoms; for
an active cell with `r² > 0` the written value is exactly
`4·sqrt(ε₁ε₂)·(t⁶ − t³) + q₁q₂·332.06/sqrt(r²)` with
`t = sqrt(σ₁σ₂)²/r²`; an inactive cell's buffer slot stays 0. -/
theorem cell_energy_correct (P : SimParams) (mols : List Molecule) (molBatch : List ℤ)
    (currentMol energyIdx : ℕ)
    (h1 : energyIdx < P.energyCount) (h2 : cellMol2 P molBatch energyIdx ≠ -1) :
    (∀ v, cellWrite P mols currentMol molBatch energyIdx = some v →
        cellActive P mols molBatch currentMol energyIdx) ∧
    (cellActive P mols molBatch currentMol energyIdx →
      0 < cellR2 P mols molBatch currentMol energyIdx →
      cellWrite P mols currentMol molBatch energyIdx =
        some (4 * Real.sqrt ((cellAtom1 P mols currentMol energyIdx).epsilon *
                (cellAtom2 P mols molBatch energyIdx).epsilon) *
              ((Real.sqrt ((cellAtom1 P mols currentMol energyIdx).sigma *
                    (cellAtom2 P mols molBatch energyIdx).sigma) ^ 2 /
                  cellR2 P mols molBatch currentMol energyIdx) ^ 6 -
                (Real.sqrt ((cellAtom1 P mols currentMol energyIdx).sigma *
                    (cellAtom2 P mols molBatch energyIdx).sigma) ^ 2 /
                  cellR2 P mols molBatch currentMol energyIdx) ^ 3) +
            (cellAtom1 P mols currentMol energyIdx).charge *
              (cellAtom2 P mols molBatch energyIdx).charge * 332.06 /
              Real.sqrt (cellR2 P mols molBatch currentMol energyIdx))) ∧
    (¬ cellActive P mols molBatch currentMol energyIdx →
      slotVal (kernelEnergies P mols currentMol molBatch) energyIdx = 0) := by
  refine ⟨?_, ?_, ?_⟩
  · intro v hv
    unfold cellWrite at hv
    rw [if_pos ⟨h1, h2⟩] at hv
    split_ifs at hv with hxy hsig
    exact ⟨hxy.1, hxy.2, hsig.1, hsig.2.1, hsig.2.2.1, hsig.2.2.2⟩
  · intro ha hr2
    have hxy : cellX P energyIdx < (mols.getD currentMol default).numOfAtoms ∧
        cellY P energyIdx <
          (mols.getD (cellMol2 P molBatch energyIdx).toNat default).numOfAtoms :=
      ⟨ha.1, ha.2.1⟩
    have hsig : 0 ≤ (cellAtom1 P mols currentMol energyIdx).sigma ∧
        0 ≤ (cellAtom1 P mols currentMol energyIdx).epsilon ∧
        0 ≤ (cellAtom2 P mols molBatch energyIdx).sigma ∧
        0 ≤ (cellAtom2 P mols molBatch energyIdx).epsilon :=
      ⟨ha.2.2.1, ha.2.2.2.1, ha.2.2.2.2.1, ha.2.2.2.2.2⟩
    unfold cellWrite
    rw [if_pos ⟨h1, h2⟩, if_pos hxy, if_pos hsig]
    congr 1
    have hne : cellR2 P mols molBatch currentMol energyIdx ≠ 0 := ne_of_gt hr2
    have hsq : Real.sqrt (cellR2 P mols molBatch currentMol energyIdx) ≠ 0 :=
      ne_of_gt (Real.sqrt_pos.mpr hr2)
    simp only [calc_lj, calcCharge, calcBlending, if_neg hne, if_neg hsq]
    ring
  · intro hna
    have hw : cellWrite P mols currentMol molBatch energyIdx = none := by
      unfold cellWrite
      rw [if_pos ⟨h1, h2⟩]
      split_ifs with hxy hsig
      · exact absurd ⟨hxy.1, hxy.2, hsig.1, hsig.2.1, hsig.2.2.1, hsig.2.2.2⟩ hna
      · rfl
      · rfl
    unfold kernelEnergies slotVal
    rw [List.getD_eq_getElem _ _ (by simpa using h1), List.getElem_ofFn]
    simp [hw]

theorem makePeriodic_neg_one_ten : makePeriodic (-1 : ℝ) 10 = -1 := by
  unfold makePeriodic
  rw [shiftUp, dif_neg (by norm_num)]
  rw [shiftDown, dif_neg (by norm_num)]

theorem makePeriodic_zero_ten : makePeriodic (0 : ℝ) 10 = 0 := by
  unfold makePeriodic
  rw [shiftUp, dif_neg (by norm_num)]
  rw [shiftDown, dif_neg (by norm_num)]

theorem wCellR2_eq_one : cellR2 wParams4 wMols4 wBatch4 0 0 = 1 := by
  unfold cellR2 cellAtom1 cellAtom2 cellMol2 cellX cellY
  norm_num [wParams4, wEnv4, wMols4, wBatch4, wMol1, wMol2, wAtom1, wAtom2,
    makePeriodic_neg_one_ten, makePeriodic_zero_ten]

theorem wCellActive : cellActive wParams4 wMols4 wBatch4 0 0 := by
  unfold cellActive cellAtom1 cellAtom2 cellMol2 cellX cellY
  norm_num [wParams4, wMols4, wBatch4, wMol1, wMol2, wAtom1, wAtom2]

/-- C4 witness: the work-cell theorem instantiated at a concrete
two-molecule system whose single cell is active with `r² = 1`. -/
theorem cell_energy_correct_witness :
    cellWrite wParams4 wMols4 0 wBatch4 0 =
      some (4 * Real.sqrt ((cellAtom1 wParams4 wMols4 0 0).epsilon *
              (cellAtom2 wParams4 wMols4 wBatch4 0).epsilon) *
            ((Real.sqrt ((cellAtom1 wParams4 wMols4 0 0).sigma *
                  (cellAtom2 wParams4 wMols4 wBatch4 0).sigma) ^ 2 /
                cellR2 wParams4 wMols4 wBatch4 0 0) ^ 6 -
              (Real.sqrt ((cellAtom1 wParams4 wMols4 0 0).sigma *
                  (cellAtom2 wParams4 wMols4 wBatch4 0).sigma) ^ 2 /
                cellR2 wParams4 wMols4 wBatch4 0 0) ^ 3) +
          (cellAtom1 wParams4 wMols4 0 0).charge *
            (cellAtom2 wParams4 wMols4 wBatch4 0).charge * 332.06 /
            Real.sqrt (cellR2 wParams4 wMols4 wBatch4 0 0)) :=
  (cell_energy_correct wParams4 wMols4 wBatch4 0 0 (by norm_num [wParams4])
      (by norm_num [cellMol2, wParams4, wBatch4])).2.1
    wCellActive (by rw [wCellR2_eq_one]; norm_num)

/-! Lemmas about the checkpoint round trip. -/

theorem copyFirst_full {α : Type} {n : ℕ} (src dst : List α)
    (h1 : src.length = n) (h2 : dst.length = n) : copyFirst n src dst = src := by
  unfold copyFirst
  rw [← h1, List.take_length, List.drop_eq_nil_of_le (by omega), List.append_nil]

theorem copyMolecule_saveChangedMole (orig dst : Molecule) (hwf : molWF orig)
    (h1 : dst.atoms.length = orig.numOfAtoms) (h2 : dst.bonds.length = orig.numOfBonds)
    (h3 : dst.angles.length = orig.numOfAngles)
    (h4 : dst.dihedrals.length = orig.numOfDihedrals)
    (h5 : dst.hops.length = orig.numOfHops) :
    copyMolecule dst (saveChangedMole orig) = orig := by
  obtain ⟨w1, w2, w3, w4, w5⟩ := hwf
  refine Molecule.ext rfl rfl rfl rfl rfl rfl ?_ ?_ ?_ ?_ ?_
  · show copyFirst orig.numOfAtoms
      (copyFirst orig.numOfAtoms orig.atoms (List.replicate orig.numOfAtoms default))
      dst.atoms = orig.atoms
    rw [copyFirst_full orig.atoms _ w1 (List.length_replicate _ _)]
    exact copyFirst_full orig.atoms dst.atoms w1 h1
  · show copyFirst orig.numOfBonds
      (copyFirst orig.numOfBonds orig.bonds (List.replicate orig.numOfBonds default))
      dst.bonds = orig.bonds
    rw [copyFirst_full orig.bonds _ w2 (List.length_replicate _ _)]
    exact copyFirst_full orig.bonds dst.bonds w2 h2
  · show copyFirst orig.numOfAngles
      (copyFirst orig.numOfAngles orig.angles (List.replicate orig.numOfAngles default))
      dst.angles = orig.angles
    rw [copyFirst_full orig.angles _ w3 (List.length_replicate _ _)]
    exact copyFirst_full orig.angles dst.angles w3 h3
  · show copyFirst orig.numOfDihedrals
      (copyFirst orig.numOfDihedrals orig.dihedrals
        (List.replicate orig.numOfDihedrals default)) dst.dihedrals = orig.dihedrals
    rw [copyFirst_full orig.dihedrals _ w4 (List.length_replicate _ _)]
    exact copyFirst_full orig.dihedrals dst.dihedrals w4 h4
  · show copyFirst orig.numOfHops
      (copyFirst orig.numOfHops orig.hops (List.replicate orig.numOfHops default))
      dst.hops = orig.hops
    rw [copyFirst_full orig.hops _ w5 (List.length_replicate _ _)]
    exact copyFirst_full orig.hops dst.hops w5 h5

/-- C3: checkpointing molecule `m` (`saveChangedMole`), mutating it in
place arbitrarily while keeping its counts and allocations, then rolling
back (`Rollback`) restores the molecule — id, all five counts and all
five sub-array contents — bit-identically. -/
theorem rollback_roundtrip (mols : List Molecule) (m : ℕ) (mutate : Molecule → Molecule)
    (hm : m < mols.length)
    (hwf : molWF (mols.getD m default))
    (hmut : sameShape (mutate (mols.getD m default)) (mols.getD m default)) :
    (Rollback (mols.set m (mutate (mols.getD m default))) m
        (saveChangedMole (mols.getD m default))).getD m default
      = mols.getD m default := by
  obtain ⟨c1, c2, c3, c4, c5, l1, l2, l3, l4, l5⟩ := hmut
  obtain ⟨w1, w2, w3, w4, w5⟩ := hwf
  have hm1 : m < (mols.set m (mutate (mols.getD m default))).length := by
    simpa using hm
  have hset : (mols.set m (mutate (mols.getD m default))).getD m default
      = mutate (mols.getD m default) := by
    rw [List.getD_eq_getElem _ _ hm1]
    exact List.getElem_set_self hm1
  unfold Rollback
  rw [hset]
  have hm2 : m < ((mols.set m (mutate (mols.getD m default))).set m
      (copyMolecule (mutate (mols.getD m default))
        (saveChangedMole (mols.getD m default)))).length := by
    simpa using hm
  rw [List.getD_eq_getElem _ _ hm2, List.getElem_set_self hm2]
  exact copyMolecule_saveChangedMole (mols.getD m default) (mutate (mols.getD m default))
    ⟨w1, w2, w3, w4, w5⟩ (l1.trans w1) (l2.trans w2) (l3.trans w3) (l4.trans w4)
    (l5.trans w5)

/-- C3 witness: the round trip instantiated at a one-molecule pool with a
concrete id-and-atom mutation. -/
theorem rollback_roundtrip_witness :
    (Rollback ([wMolecule].set 0 (wMutation ([wMolecule].getD 0 default))) 0
        (saveChangedMole ([wMolecule].getD 0 default))).getD 0 default
      = [wMolecule].getD 0 default :=
  rollback_roundtrip [wMolecule] 0 wMutation (by norm_num)
    ⟨rfl, rfl, rfl, rfl, rfl⟩ ⟨rfl, rfl, rfl, rfl, rfl, rfl, rfl, rfl, rfl, rfl⟩

/-! Lemmas about the Metropolis driver. -/

theorem metroStep_sysEnergyCalls (P : SimParams) (r : StepRand) (s : SimState) :
    (metroStep P r s).sysEnergyCalls = s.sysEnergyCalls := by
  simp only [metroStep]
  split <;> rfl

/-- C2: in every run, the full O(N²) `calcSystemEnergy` is invoked at
most once — before the first step, and exactly when the running total is
still the 0 sentinel meaning it is not already known — while inside the
step loop `metroStep` never invokes it, and changes `oldEnergy` only by
leaving it unchanged or adding the step's single-molecule delta
`Enew − Eold`. -/
theorem runParallel_full_energy_once (P : SimParams) (rands : List StepRand)
    (st : SimState) :
    (runParallel P rands st).sysEnergyCalls
        = st.sysEnergyCalls + (if st.oldEnergy = 0 then 1 else 0) ∧
      ∀ (r : StepRand) (s : SimState),
        (metroStep P r s).sysEnergyCalls = s.sysEnergyCalls ∧
          ((metroStep P r s).oldEnergy = s.oldEnergy ∨
            (metroStep P r s).oldEnergy
              = s.oldEnergy + (stepNewCont P r s - stepOldCont P r s)) := by
  constructor
  · have hfold : ∀ (l : List StepRand) (s : SimState),
        (l.foldl (fun s r => metroStep P r s) s).sysEnergyCalls = s.sysEnergyCalls := by
      intro l
      induction l with
      | nil => intro s; rfl
      | cons r l ih =>
          intro s
          rw [List.foldl_cons, ih, metroStep_sysEnergyCalls]
    show (rands.foldl (fun s r => metroStep P r s) _).sysEnergyCalls = _
    rw [hfold]
    by_cases h : st.oldEnergy = 0
    · rw [if_pos h, if_pos h]
    · rw [if_neg h, if_neg h]
      omega
  · intro r s
    refine ⟨metroStep_sysEnergyCalls P r s, ?_⟩
    simp only [metroStep]
    split
    · exact Or.inr rfl
    · exact Or.inl rfl

/-- C9: per step — on acceptance, only the accepted counter increments
and `oldEnergy` gains exactly `Enew − Eold`, the moved pool standing; on
rejection, only the rejected counter increments, `oldEnergy` is
unchanged, and `Rollback` is applied to the chosen molecule of the moved
pool with the checkpoint taken at the step's start. -/
theorem metroStep_frame (P : SimParams) (r : StepRand) (st : SimState) :
    (stepAccept P r st = true →
        (metroStep P r st).accepted = st.accepted + 1 ∧
        (metroStep P r st).rejected = st.rejected ∧
        (metroStep P r st).oldEnergy
          = st.oldEnergy + (stepNewCont P r st - stepOldCont P r st) ∧
        (metroStep P r st).mols = movedPool P r st) ∧
    (stepAccept P r st = false →
        (metroStep P r st).rejected = st.rejected + 1 ∧
        (metroStep P r st).accepted = st.accepted ∧
        (metroStep P r st).oldEnergy = st.oldEnergy ∧
        (metroStep P r st).mols
          = Rollback (movedPool P r st) r.changeIdx
              (saveChangedMole (st.mols.getD r.changeIdx default))) := by
  constructor
  · intro ha
    simp [metroStep, ha]
  · intro ha
    simp [metroStep, ha]

theorem wContribution_zero (mols : List Molecule) :
    calcMolecularEnergyContribution wParams mols 0 0 = 0 := by
  unfold calcMolecularEnergyContribution calcBatchEnergy createMolBatch
  simp [wParams]

theorem wStepAccept_false : stepAccept wParams wRand wState = false := by
  have h1 : stepOldCont wParams wRand wState = 0 := by
    show calcMolecularEnergyContribution wParams [] 0 0 = 0
    exact wContribution_zero []
  have h2 : stepNewCont wParams wRand wState = 0 := by
    show calcMolecularEnergyContribution wParams (movedPool wParams wRand wState) 0 0 = 0
    have hmp : movedPool wParams wRand wState = [] := rfl
    rw [hmp]
    exact wContribution_zero []
  unfold stepAccept
  rw [h1, h2]
  unfold acceptMove
  rw [if_neg (lt_irrefl (0 : ℝ))]
  rw [if_neg (show ¬ Real.exp (-((0 : ℝ) - 0) / (wParams.kBoltz * wParams.env.temperature))
      ≥ wRand.draw from by norm_num [wParams, wEnv, wRand, Real.exp_zero])]

/-- C9 witness: the frame theorem's rejection branch instantiated at the
empty sample simulation, whose step is rejected (`exp(0) = 1 < 2`). -/
theorem metroStep_frame_witness :
    (metroStep wParams wRand wState).rejected = wState.rejected + 1 ∧
      (metroStep wParams wRand wState).accepted = wState.accepted ∧
      (metroStep wParams wRand wState).oldEnergy = wState.oldEnergy ∧
      (metroStep wParams wRand wState).mols
        = Rollback (movedPool wParams wRand wState) wRand.changeIdx
            (saveChangedMole (wState.mols.getD wRand.changeIdx default)) :=
  (metroStep_frame wParams wRand wState).2 wStepAccept_false

end MCGPU
